import Mathlib

/-!
Shallow embedding of `extract.py` (iTunes .itl library extractor).

The source decodes a partially AES-encrypted, zlib-compressed container
into a stream of tagged records and assembles track and playlist tables.
Bytes are modelled as `Nat` (values 0..255 in every real run), byte
buffers as `List Nat`.  The external AES and zlib collaborators are
modelled as function parameters (`decrypt`, `inflate`), exactly as the
spec declares them external interfaces.  Python exceptions are modelled
with `Except`; `io.BytesIO` short-read semantics (a read near the end of
the buffer returns the available bytes without error, and a read with a
negative size returns everything up to the end) are modelled faithfully.
-/

deriving instance DecidableEq for Except

/-- Big-endian 32-bit value of (the first four bytes of) a byte list,
mirroring `struct.unpack of a big-endian I`. -/
def fromBE (bs : List Nat) : Nat :=
  bs.getD 0 0 * 16777216 + bs.getD 1 0 * 65536 + bs.getD 2 0 * 256 + bs.getD 3 0

/-- Little-endian 32-bit value of (the first four bytes of) a byte list,
mirroring `struct.unpack of a little-endian I`. -/
def fromLE (bs : List Nat) : Nat :=
  bs.getD 0 0 + bs.getD 1 0 * 256 + bs.getD 2 0 * 65536 + bs.getD 3 0 * 16777216

/-- Big-endian 4-byte encoding of a value below 2^32 (used to build
concrete test inputs). -/
def u32be (n : Nat) : List Nat :=
  [n / 16777216 % 256, n / 65536 % 256, n / 256 % 256, n % 256]

/-- Errors raised by the Python source while parsing: `ValueError` for an
unknown record type (with the possibly reversed tag it reports),
`struct.error` for a short unpack buffer, `IndexError` for `read_byte`
on an empty read, `UnicodeDecodeError` for ascii or utf-16 decode
failures, and fuel exhaustion (unreachable for the fuel the entry point
supplies). -/
inductive ParseErr where
  | unknownRecordType (tag : List Char)
  | structError
  | indexError
  | unicodeDecodeError
  | outOfFuel
deriving DecidableEq

/-- The class `ItlIO` of the source: a `BytesIO` buffer with a position
and the sticky `flipped` byte-order flag. `buf` is immutable (matching
`getvalue`), only `pos` and `flipped` change. -/
structure Cursor where
  buf : List Nat
  pos : Nat
  flipped : Bool
deriving DecidableEq

/-- A fresh cursor over a buffer, as built by `ItlIO(data)`: position 0,
with the given byte-order flag (`flipped` is `False` on construction and
copied from the outer cursor for chunk bodies). -/
def Cursor.fresh (buf : List Nat) (fl : Bool) : Cursor :=
  ⟨buf, 0, fl⟩

/-- `BytesIO.read(n)`: returns at most `n` bytes (fewer near the end of
the buffer, without error), and for negative `n` everything up to the
end of the buffer; advances the position by the number of bytes
returned. -/
def Cursor.readBytes (s : Cursor) (n : Int) : List Nat × Cursor :=
  let avail := s.buf.drop s.pos
  let out := if n < 0 then avail else avail.take n.toNat
  (out, ⟨s.buf, s.pos + out.length, s.flipped⟩)

/-- `ItlIO.skip`: read and discard. -/
def Cursor.skip (s : Cursor) (n : Int) : Cursor :=
  (s.readBytes n).2

/-- Python ascii decoding of a byte string: fails iff any byte is 128 or
larger. -/
def asciiDecode (bs : List Nat) : Option (List Char) :=
  if bs.all (fun b => b < 128) then some (bs.map Char.ofNat) else none

/-- `ItlIO.read_ascii`: read `n` bytes (possibly fewer near the end) and
ascii-decode them; raises `UnicodeDecodeError` on a non-ascii byte. -/
def Cursor.read_ascii (s : Cursor) (n : Int) : Except ParseErr (List Char × Cursor) :=
  let pr := s.readBytes n
  match asciiDecode pr.1 with
  | some t => .ok (t, pr.2)
  | none => .error .unicodeDecodeError

/-- `ItlIO.read_byte`: first byte of a 1-byte read; `IndexError` when no
byte remains. -/
def Cursor.read_byte (s : Cursor) : Except ParseErr (Nat × Cursor) :=
  let pr := s.readBytes 1
  match pr.1 with
  | b :: _ => .ok (b, pr.2)
  | [] => .error .indexError

/-- `ItlIO.read_uint`: unpack 4 bytes as a 32-bit integer, little-endian
when the `flipped` flag is set and big-endian otherwise; `struct.error`
when fewer than 4 bytes remain. -/
def Cursor.read_uint (s : Cursor) : Except ParseErr (Nat × Cursor) :=
  let pr := s.readBytes 4
  if pr.1.length = 4 then
    .ok ((if s.flipped then fromLE pr.1 else fromBE pr.1), pr.2)
  else .error .structError

/-- Latin-1 (iso-8859-1) decoding: every byte maps to the character with
the same code point; never fails. -/
def latin1Decode (bs : List Nat) : List Char :=
  bs.map Char.ofNat

/-- UTF-16 little-endian decoding as Python performs it: pair bytes into
16-bit units, combine surrogate pairs, fail (`UnicodeDecodeError`) on an
odd byte count, an unpaired high surrogate or a stray low surrogate. -/
def utf16leDecode : List Nat → Option (List Char)
  | [] => some []
  | [_] => none
  | lo :: hi :: rest =>
    let u := lo + 256 * hi
    if 0xD800 ≤ u ∧ u ≤ 0xDBFF then
      match rest with
      | lo2 :: hi2 :: rest2 =>
        let u2 := lo2 + 256 * hi2
        if 0xDC00 ≤ u2 ∧ u2 ≤ 0xDFFF then
          match utf16leDecode rest2 with
          | some cs => some (Char.ofNat (0x10000 + (u - 0xD800) * 1024 + (u2 - 0xDC00)) :: cs)
          | none => none
        else none
      | _ => none
    else if 0xDC00 ≤ u ∧ u ≤ 0xDFFF then none
    else
      match utf16leDecode rest with
      | some cs => some (Char.ofNat u :: cs)
      | none => none

/-- The content-sniffing text decode of `parse_hohm` (source lines
202-207): even length above 1 with a zero first byte decodes as Latin-1,
otherwise even length above 1 with a zero last byte decodes as UTF-16
little-endian, and everything else falls back to Latin-1. -/
def hohmTextDecode (d : List Nat) : Except ParseErr (List Char) :=
  if 1 < d.length ∧ d.length % 2 = 0 ∧ d.getD 0 1 = 0 then
    .ok (latin1Decode d)
  else if 1 < d.length ∧ d.length % 2 = 0 ∧ d.getD (d.length - 1) 1 = 0 then
    match utf16leDecode d with
    | some cs => .ok cs
    | none => .error .unicodeDecodeError
  else .ok (latin1Decode d)

/-- The decoded record variants of the source (one namedtuple per tag;
tags whose namedtuples carry no fields are bare constructors).  `hohm`
data is either raw bytes (for the "odd" type codes) or decoded text. -/
inductive HohmData where
  | raw (bytes : List Nat)
  | text (s : List Char)
deriving DecidableEq

/-- One record per known 4-byte tag, with exactly the fields the
source's namedtuples carry. -/
inductive Record where
  | hdfm (file_length : Nat) (version : List Char)
  | hdsm (block_type : Nat) (block_length : Nat)
  | hghm
  | hohm (record_length : Nat) (type : Nat) (data : HohmData)
  | halm
  | haim
  | hilm
  | hiim
  | htlm
  | htim (record_length : Nat) (sub_blocks : Nat) (song_id : Nat) (block_type : Nat)
  | hqlm
  | hqim
  | hsts
  | hplm
  | hpim (item_count : Nat)
  | hptm (key : Nat)
  | hslm
  | hpsm
  | hrlm
  | hrpm
deriving DecidableEq

/-- The `HohmType` enumeration of the source. -/
def HohmType.TITLE : Nat := 2
def HohmType.ALBUM_TITLE : Nat := 3
def HohmType.ARTIST : Nat := 4
def HohmType.PLAYLIST_TITLE : Nat := 100
def HohmType.LOCAL_PATH : Nat := 11

/-- `HOHM_ODD_TYPES` of the source: hohm type codes whose data is kept
as raw bytes. -/
def HOHM_ODD_TYPES : List Nat := [0x42, 0x68, 0x69, 0x6a, 0x6b, 0x6c, 0x192, 0x1f7, 0x1f4, 0x202, 0x320]

/-- The set of `parse_xxxx` methods of `RecordParser`, one per known
tag. -/
inductive Method where
  | hdfm | hdsm | hghm | hohm | halm | haim | hilm | hiim | htlm | htim
  | hqlm | hqim | hsts | hplm | hpim | hptm | hslm | hpsm | hrlm | hrpm
deriving DecidableEq

/-- `hasattr(self, parse_tag)` as a lookup: the method for a 4-character
tag, or `none` when the class has no such method. -/
def lookupMethod (t : List Char) : Option Method :=
  if t = ("hdfm").data then some .hdfm
  else if t = ("hdsm").data then some .hdsm
  else if t = ("hghm").data then some .hghm
  else if t = ("hohm").data then some .hohm
  else if t = ("halm").data then some .halm
  else if t = ("haim").data then some .haim
  else if t = ("hilm").data then some .hilm
  else if t = ("hiim").data then some .hiim
  else if t = ("htlm").data then some .htlm
  else if t = ("htim").data then some .htim
  else if t = ("hqlm").data then some .hqlm
  else if t = ("hqim").data then some .hqim
  else if t = ("hsts").data then some .hsts
  else if t = ("hplm").data then some .hplm
  else if t = ("hpim").data then some .hpim
  else if t = ("hptm").data then some .hptm
  else if t = ("hslm").data then some .hslm
  else if t = ("hpsm").data then some .hpsm
  else if t = ("hrlm").data then some .hrlm
  else if t = ("hrpm").data then some .hrpm
  else none

/-- Method resolution of `RecordParser.parse` (source lines 146-158):
orient the tag by the current `flipped` flag, look the method up, fall
back to the reversed tag and set the flag sticky when only the reversed
orientation is known; `none` when neither orientation is known.  Returns
the method together with the new value of the `flipped` flag. -/
def resolveMethod (flipped : Bool) (t : List Char) : Option (Method × Bool) :=
  let rt := if flipped then t.reverse else t
  match lookupMethod rt with
  | some m => some (m, flipped)
  | none =>
    match lookupMethod rt.reverse with
    | some m => some (m, true)
    | none => none

/-- `parse_hdfm`: file length, 4 skipped bytes, a length-prefixed ascii
version string, all read from the chunk body. -/
def parse_hdfm (data : Cursor) (outer : Cursor) : Except ParseErr (Record × Cursor) :=
  match data.read_uint with
  | .error e => .error e
  | .ok (file_length, data) =>
    let data := data.skip 4
    match data.read_byte with
    | .error e => .error e
    | .ok (version_length, data) =>
      match data.read_ascii (version_length : Int) with
      | .error e => .error e
      | .ok (version, _) => .ok (.hdfm file_length version, outer)

/-- `parse_hdsm`: record length and block type from the body; block
types 4 and 22 additionally skip
`record_length - body_length - 8` bytes on the outer stream. -/
def parse_hdsm (data : Cursor) (outer : Cursor) : Except ParseErr (Record × Cursor) :=
  match data.read_uint with
  | .error e => .error e
  | .ok (record_length, data) =>
    match data.read_uint with
    | .error e => .error e
    | .ok (block_type, data) =>
      let outer :=
        if block_type = 4 ∨ block_type = 22 then
          outer.skip ((record_length : Int) - (data.buf.length : Int) - 8)
        else outer
      .ok (.hdsm block_type record_length, outer)

/-- `parse_hohm`: record length and type code from the body, then
`record_length - body_length - 8` value bytes read from the outer
stream; odd type codes keep the raw bytes, the rest drop a 16-byte
sub-header and decode the remainder as text. -/
def parse_hohm (data : Cursor) (outer : Cursor) : Except ParseErr (Record × Cursor) :=
  match data.read_uint with
  | .error e => .error e
  | .ok (record_length, data) =>
    match data.read_uint with
    | .error e => .error e
    | .ok (hohm_type, data) =>
      let pr := outer.readBytes ((record_length : Int) - (data.buf.length : Int) - 8)
      if hohm_type ∈ HOHM_ODD_TYPES then
        .ok (.hohm record_length hohm_type (.raw pr.1), pr.2)
      else
        match hohmTextDecode (pr.1.drop 16) with
        | .ok s => .ok (.hohm record_length hohm_type (.text s), pr.2)
        | .error e => .error e

/-- `parse_htim`: record length, sub-block count, song id and block type
from the body. -/
def parse_htim (data : Cursor) (outer : Cursor) : Except ParseErr (Record × Cursor) :=
  match data.read_uint with
  | .error e => .error e
  | .ok (record_length, data) =>
    match data.read_uint with
    | .error e => .error e
    | .ok (sub_blocks, data) =>
      match data.read_uint with
      | .error e => .error e
      | .ok (song_id, data) =>
        match data.read_uint with
        | .error e => .error e
        | .ok (block_type, _) =>
          .ok (.htim record_length sub_blocks song_id block_type, outer)

/-- `parse_hpim`: skip 8 unused header bytes, then the item count. -/
def parse_hpim (data : Cursor) (outer : Cursor) : Except ParseErr (Record × Cursor) :=
  let data := data.skip (4 + 4)
  match data.read_uint with
  | .error e => .error e
  | .ok (item_count, _) => .ok (.hpim item_count, outer)

/-- `parse_hptm`: skip 16 unused header bytes, then the referenced track
key. -/
def parse_hptm (data : Cursor) (outer : Cursor) : Except ParseErr (Record × Cursor) :=
  let data := data.skip 16
  match data.read_uint with
  | .error e => .error e
  | .ok (key, _) => .ok (.hptm key, outer)

/-- Dispatch to the per-tag decode method; marker tags consume nothing
and return an empty record. -/
def runMethod : Method → Cursor → Cursor → Except ParseErr (Record × Cursor)
  | .hdfm, d, o => parse_hdfm d o
  | .hdsm, d, o => parse_hdsm d o
  | .hghm, _, o => .ok (.hghm, o)
  | .hohm, d, o => parse_hohm d o
  | .halm, _, o => .ok (.halm, o)
  | .haim, _, o => .ok (.haim, o)
  | .hilm, _, o => .ok (.hilm, o)
  | .hiim, _, o => .ok (.hiim, o)
  | .htlm, _, o => .ok (.htlm, o)
  | .htim, d, o => parse_htim d o
  | .hqlm, _, o => .ok (.hqlm, o)
  | .hqim, _, o => .ok (.hqim, o)
  | .hsts, _, o => .ok (.hsts, o)
  | .hplm, _, o => .ok (.hplm, o)
  | .hpim, d, o => parse_hpim d o
  | .hptm, d, o => parse_hptm d o
  | .hslm, _, o => .ok (.hslm, o)
  | .hpsm, _, o => .ok (.hpsm, o)
  | .hrlm, _, o => .ok (.hrlm, o)
  | .hrpm, _, o => .ok (.hrpm, o)

/-- Result of one iteration of the walker loop: normal end of stream, a
raised error, or one decoded record together with the outer cursor to
continue from. -/
inductive StepRes where
  | done
  | err (e : ParseErr)
  | yield (r : Record) (s : Cursor)
deriving DecidableEq

/-- Run a resolved method on a chunk: the body bytes get a fresh cursor
inheriting the outer byte-order flag (source lines 163-166). -/
def decodeWith (m : Method) (bodyBytes : List Nat) (outer : Cursor) : StepRes :=
  match runMethod m (Cursor.fresh bodyBytes outer.flipped) outer with
  | .ok (r, o) => .yield r o
  | .error e => .err e

/-- One iteration of `RecordParser.parse` (source lines 139-167): read a
4-byte ascii tag (empty read ends the walk), resolve the method in
either orientation (possibly setting the sticky `flipped` flag), read
the declared length with the updated flag, slice `length - 8` body bytes
(a negative count reads to the end of the stream), and run the method. -/
def parseStep (s : Cursor) : StepRes :=
  match s.read_ascii 4 with
  | .error e => .err e
  | .ok (t, s1) =>
    if t.isEmpty then .done
    else
      match resolveMethod s1.flipped t with
      | none => .err (.unknownRecordType (if s1.flipped then t.reverse else t))
      | some (m, fl) =>
        let s2 : Cursor := ⟨s1.buf, s1.pos, fl⟩
        match s2.read_uint with
        | .error e => .err e
        | .ok (len, s3) =>
          let pr := s3.readBytes ((len : Int) - 8)
          decodeWith m pr.1 pr.2

/-- The walker loop, fuel-indexed (the fuel the entry point supplies
always suffices: every yielded record consumes at least 8 bytes). -/
def parseLoop : Nat → Cursor → Except ParseErr (List Record)
  | 0, _ => .error .outOfFuel
  | fuel + 1, s =>
    match parseStep s with
    | .done => .ok []
    | .err e => .error e
    | .yield r s' =>
      match parseLoop fuel s' with
      | .ok rs => .ok (r :: rs)
      | .error e => .error e

/-- `RecordParser(data).parse()` driven to completion: the full record
list, or the first raised error. -/
def parseRecords (bytes : List Nat) : Except ParseErr (List Record) :=
  parseLoop (bytes.length + 1) (Cursor.fresh bytes false)

/-- The in-progress track accumulator: the Python dict `track` with its
five possible keys (`song_id`, `title`, `album`, `artist`, `path`); a
missing key is `none`. -/
structure Track where
  song_id : Option Nat := none
  title : Option HohmData := none
  album : Option HohmData := none
  artist : Option HohmData := none
  path : Option HohmData := none
deriving DecidableEq

/-- Python dict truthiness for the track accumulator: empty iff no key
was ever set. -/
def Track.isEmpty (t : Track) : Bool :=
  t.song_id = none ∧ t.title = none ∧ t.album = none ∧ t.artist = none ∧ t.path = none

/-- The in-progress playlist accumulator: the Python dict `playlist`
with its two possible keys (`title`, `items`). -/
structure Playlist where
  title : Option HohmData := none
  items : Option (List Nat) := none
deriving DecidableEq

/-- Python dict truthiness for the playlist accumulator. -/
def Playlist.isEmpty (p : Playlist) : Bool :=
  p.title = none ∧ p.items = none

/-- The dict key missing in a raised `KeyError`. -/
inductive KeyName where
  | song_id
  | title
  | items
deriving DecidableEq

/-- `KeyError` raised by the assembler loop. -/
inductive AsmErr where
  | keyError (k : KeyName)
deriving DecidableEq

/-- Python dict assignment `d[k] = v` on an insertion-ordered
association list: replace in place when the key exists, append
otherwise. -/
def pyInsert {α β : Type} [DecidableEq α] : List (α × β) → α → β → List (α × β)
  | [], k, v => [(k, v)]
  | (k', v') :: rest, k, v =>
    if k' = k then (k, v) :: rest else (k', v') :: pyInsert rest k v

/-- Python dict lookup `d[k]` as an option. -/
def pyLookup {α β : Type} [DecidableEq α] : List (α × β) → α → Option β
  | [], _ => none
  | (k', v') :: rest, k => if k' = k then some v' else pyLookup rest k

/-- The whole mutable state of the module-level assembler loop: the two
accumulators and the two output tables (insertion-ordered, as Python
dicts are). -/
structure AsmState where
  track : Track
  tracks : List (Nat × Track)
  playlist : Playlist
  playlists : List (HohmData × Playlist)
deriving DecidableEq

/-- Initial assembler state: all four dicts empty. -/
def asmInit : AsmState :=
  ⟨{}, [], {}, []⟩

/-- One iteration of the assembler loop (source lines 308-329), applied
to one record. -/
def asmStep (st : AsmState) (r : Record) : Except AsmErr AsmState :=
  match r with
  | .htim _ _ song_id _ =>
    if st.track.isEmpty then
      .ok { st with track := { song_id := some song_id } }
    else
      match st.track.song_id with
      | some sid =>
        .ok { st with tracks := pyInsert st.tracks sid st.track,
                      track := { song_id := some song_id } }
      | none => .error (.keyError .song_id)
  | .hohm _ ty dat =>
    if ty = HohmType.TITLE then
      .ok { st with track := { st.track with title := some dat } }
    else if ty = HohmType.ALBUM_TITLE then
      .ok { st with track := { st.track with album := some dat } }
    else if ty = HohmType.ARTIST then
      .ok { st with track := { st.track with artist := some dat } }
    else if ty = HohmType.LOCAL_PATH then
      .ok { st with track := { st.track with path := some dat } }
    else if ty = HohmType.PLAYLIST_TITLE then
      .ok { st with playlist := { st.playlist with title := some dat } }
    else .ok st
  | .hpim _ =>
    if st.playlist.isEmpty then
      .ok { st with playlist := ⟨none, some []⟩ }
    else
      match st.playlist.title with
      | some t =>
        .ok { st with playlists := pyInsert st.playlists t st.playlist,
                      playlist := ⟨none, some []⟩ }
      | none => .error (.keyError .title)
  | .hptm key =>
    match st.playlist.items with
    | some l => .ok { st with playlist := { st.playlist with items := some (l ++ [key]) } }
    | none => .error (.keyError .items)
  | _ => .ok st

/-- The assembler loop folded over a record list, stopping at the first
raised error. -/
def stepFold (st : AsmState) : List Record → Except AsmErr AsmState
  | [] => .ok st
  | r :: rs =>
    match asmStep st r with
    | .ok st' => stepFold st' rs
    | .error e => .error e

/-- The two output tables. -/
abbrev Tables := List (Nat × Track) × List (HohmData × Playlist)

/-- The end-of-stream track commit (source lines 331-332): a non-empty
track accumulator joins `tracks` keyed by its song id; a missing key
raises. -/
def finalTracks (st : AsmState) : Except AsmErr (List (Nat × Track)) :=
  if st.track.isEmpty then .ok st.tracks
  else
    match st.track.song_id with
    | some sid => .ok (pyInsert st.tracks sid st.track)
    | none => .error (.keyError .song_id)

/-- The end-of-stream playlist commit (source lines 334-335). -/
def finalPlaylists (st : AsmState) : Except AsmErr (List (HohmData × Playlist)) :=
  if st.playlist.isEmpty then .ok st.playlists
  else
    match st.playlist.title with
    | some t => .ok (pyInsert st.playlists t st.playlist)
    | none => .error (.keyError .title)

/-- Both end-of-stream commits: track first, then playlist. -/
def finalCommit (st : AsmState) : Except AsmErr Tables :=
  match finalTracks st with
  | .error e => .error e
  | .ok tracks =>
    match finalPlaylists st with
    | .error e => .error e
    | .ok playlists => .ok (tracks, playlists)

/-- The whole assembler: loop over every record, then the end-of-stream
commits. -/
def assemble (records : List Record) : Except AsmErr Tables :=
  match stepFold asmInit records with
  | .ok st => finalCommit st
  | .error e => .error e

/-- Errors of the whole decode: a parse error or an assembler error. -/
inductive DecodeErr where
  | parse (e : ParseErr)
  | asm (e : AsmErr)
deriving DecidableEq

/-- Decode a plaintext record stream into the two tables: walk all
chunks, then assemble; any error aborts with no tables. -/
def decodeLibraryPlain (bytes : List Nat) : Except DecodeErr Tables :=
  match parseRecords bytes with
  | .error e => .error (.parse e)
  | .ok recs =>
    match assemble recs with
    | .error e => .error (.asm e)
    | .ok t => .ok t

/-- `HEADER_LENGTH` of the source. -/
def HEADER_LENGTH : Nat := 0x90

/-- `CRYPTO_KEY` of the source: the fixed 16-byte AES key
`BHUILuilfghuila3` as bytes. -/
def CRYPTO_KEY : List Nat :=
  [66, 72, 85, 73, 76, 117, 105, 108, 102, 103, 104, 117, 105, 108, 97, 51]

/-- Errors of the envelope transformation: `struct.error` when the
container is too short to hold the 4 bytes at offset 0x5C, and a zlib
error when inflation fails. -/
inductive EnvErr where
  | structError
  | decompressionError
deriving DecidableEq

/-- The envelope transformation (source lines 284-295): take the 0x90
byte header, read `max_crypt_length` big-endian at header offset 0x5C,
decrypt the `max_crypt_length` bytes after the header with the fixed
key, reassemble with the untouched tail and inflate, producing
`header ++ inflated`.  `decrypt` (AES-128-ECB, keyed) and `inflate`
(zlib) are the external collaborators.  The clamped `crypt_length` the
source also computes is dead code, reproduced here unused. -/
def envelopeDecode (decrypt : List Nat → List Nat → List Nat)
    (inflate : List Nat → Option (List Nat)) (itl : List Nat) :
    Except EnvErr (List Nat) :=
  let header := itl.take HEADER_LENGTH
  let slice := (header.drop 0x5C).take 4
  if slice.length = 4 then
    let max_crypt_length := fromBE slice
    let _crypt_length : Int :=
      min (16 * Int.fdiv ((itl.length : Int) - (HEADER_LENGTH : Int)) 16)
        (max_crypt_length : Int)
    let decrypted := decrypt CRYPTO_KEY ((itl.drop HEADER_LENGTH).take max_crypt_length)
    let reassembled := decrypted ++ itl.drop (max_crypt_length + HEADER_LENGTH)
    match inflate reassembled with
    | some inflated => .ok (header ++ inflated)
    | none => .error .decompressionError
  else .error .structError

/-- Errors of the whole module run. -/
inductive PipelineErr where
  | envelope (e : EnvErr)
  | decode (e : DecodeErr)
deriving DecidableEq

/-- The module-level pipeline exactly as the source executes it: the
envelope transformation runs on the raw container bytes, but its output
is then discarded — source lines 305-306 re-read `itl` from the
hard-coded debug file `parseditl.txt` before the record walk, so the
tables are decoded from `debugFileBytes`, the contents of that file, not
from the envelope output. -/
def modulePipeline (decrypt : List Nat → List Nat → List Nat)
    (inflate : List Nat → Option (List Nat)) (raw : List Nat)
    (debugFileBytes : List Nat) : Except PipelineErr Tables :=
  match envelopeDecode decrypt inflate raw with
  | .error e => .error (.envelope e)
  | .ok _plaintext =>
    match decodeLibraryPlain debugFileBytes with
    | .error e => .error (.decode e)
    | .ok t => .ok t

/-- Is a record a `hpim` (playlist item count)? -/
def Record.isHpim : Record → Bool
  | .hpim _ => true
  | _ => false

/-- Is a record a `hptm` (playlist entry key)? -/
def Record.isHptm : Record → Bool
  | .hptm _ => true
  | _ => false

/-- Is a record a `hohm` of type `PLAYLIST_TITLE`? -/
def Record.isPlaylistTitleHohm : Record → Bool
  | .hohm _ ty _ => ty = HohmType.PLAYLIST_TITLE
  | _ => false

/-- The playlist entry keys carried by a record list, in arrival
order. -/
def hptmKeys (rs : List Record) : List Nat :=
  rs.filterMap (fun r =>
    match r with
    | .hptm k => some k
    | _ => none)

theorem readBytes_snd_buf (s : Cursor) (n : Int) : ((s.readBytes n).2).buf = s.buf := rfl

theorem readBytes_snd_flipped (s : Cursor) (n : Int) : ((s.readBytes n).2).flipped = s.flipped := rfl

theorem skip_buf (s : Cursor) (n : Int) : (s.skip n).buf = s.buf := rfl

theorem skip_flipped (s : Cursor) (n : Int) : (s.skip n).flipped = s.flipped := rfl

theorem read_uint_ok (s s' : Cursor) (v : Nat) (h : s.read_uint = .ok (v, s')) :
    s'.buf = s.buf ∧ s'.flipped = s.flipped ∧ s'.pos = s.pos + 4 := by
  dsimp only [Cursor.read_uint] at h
  split at h
  · simp only [Except.ok.injEq, Prod.mk.injEq] at h
    rw [← h.2]
    refine ⟨rfl, rfl, ?_⟩
    show s.pos + ((s.readBytes 4).1).length = s.pos + 4
    omega
  · simp at h

theorem read_ascii_ok (s s' : Cursor) (n : Int) (t : List Char)
    (h : s.read_ascii n = .ok (t, s')) :
    s'.buf = s.buf ∧ s'.flipped = s.flipped := by
  dsimp only [Cursor.read_ascii] at h
  split at h
  · simp only [Except.ok.injEq, Prod.mk.injEq] at h
    rw [← h.2]
    exact ⟨rfl, rfl⟩
  · simp at h

theorem parse_hdfm_ok_flipped (d o o' : Cursor) (r : Record)
    (h : parse_hdfm d o = .ok (r, o')) : o'.flipped = o.flipped := by
  dsimp only [parse_hdfm] at h
  repeat' split at h
  all_goals
    first
    | (simp only [Except.ok.injEq, Prod.mk.injEq] at h; rw [← h.2]; try rfl)
    | simp at h

theorem parse_hdsm_ok_flipped (d o o' : Cursor) (r : Record)
    (h : parse_hdsm d o = .ok (r, o')) : o'.flipped = o.flipped := by
  dsimp only [parse_hdsm] at h
  repeat' split at h
  all_goals
    first
    | (simp only [Except.ok.injEq, Prod.mk.injEq] at h; rw [← h.2]; try rfl)
    | simp at h

theorem parse_hohm_ok_flipped (d o o' : Cursor) (r : Record)
    (h : parse_hohm d o = .ok (r, o')) : o'.flipped = o.flipped := by
  dsimp only [parse_hohm] at h
  repeat' split at h
  all_goals
    first
    | (simp only [Except.ok.injEq, Prod.mk.injEq] at h; rw [← h.2]; try rfl)
    | simp at h

theorem parse_htim_ok_flipped (d o o' : Cursor) (r : Record)
    (h : parse_htim d o = .ok (r, o')) : o'.flipped = o.flipped := by
  dsimp only [parse_htim] at h
  repeat' split at h
  all_goals
    first
    | (simp only [Except.ok.injEq, Prod.mk.injEq] at h; rw [← h.2]; try rfl)
    | simp at h

theorem parse_hpim_ok_flipped (d o o' : Cursor) (r : Record)
    (h : parse_hpim d o = .ok (r, o')) : o'.flipped = o.flipped := by
  dsimp only [parse_hpim] at h
  repeat' split at h
  all_goals
    first
    | (simp only [Except.ok.injEq, Prod.mk.injEq] at h; rw [← h.2]; try rfl)
    | simp at h

theorem parse_hptm_ok_flipped (d o o' : Cursor) (r : Record)
    (h : parse_hptm d o = .ok (r, o')) : o'.flipped = o.flipped := by
  dsimp only [parse_hptm] at h
  repeat' split at h
  all_goals
    first
    | (simp only [Except.ok.injEq, Prod.mk.injEq] at h; rw [← h.2]; try rfl)
    | simp at h

theorem runMethod_ok_flipped (m : Method) (d o o' : Cursor) (r : Record)
    (h : runMethod m d o = .ok (r, o')) : o'.flipped = o.flipped := by
  cases m
  case hdfm => exact parse_hdfm_ok_flipped d o o' r h
  case hdsm => exact parse_hdsm_ok_flipped d o o' r h
  case hohm => exact parse_hohm_ok_flipped d o o' r h
  case htim => exact parse_htim_ok_flipped d o o' r h
  case hpim => exact parse_hpim_ok_flipped d o o' r h
  case hptm => exact parse_hptm_ok_flipped d o o' r h
  all_goals
    (dsimp only [runMethod] at h;
     simp only [Except.ok.injEq, Prod.mk.injEq] at h;
     rw [← h.2])

theorem stepFold_append (st : AsmState) (a b : List Record) :
    stepFold st (a ++ b) =
      match stepFold st a with
      | .ok st' => stepFold st' b
      | .error e => .error e := by
  induction a generalizing st with
  | nil => simp [stepFold]
  | cons r rest ih =>
    simp only [List.cons_append, stepFold]
    rcases h : asmStep st r with e | st'
    · rfl
    · exact ih st'

theorem stepFold_error_assemble (recs : List Record) (e : AsmErr)
    (h : stepFold asmInit recs = .error e) : assemble recs = .error e := by
  unfold assemble
  rw [h]

theorem pyInsert_mem {α β : Type} [DecidableEq α] (l : List (α × β)) (k a : α) (v b : β)
    (h : (a, b) ∈ pyInsert l k v) : (a = k ∧ b = v) ∨ (a, b) ∈ l := by
  induction l with
  | nil =>
    simp only [pyInsert, List.mem_singleton, Prod.mk.injEq] at h
    exact Or.inl h
  | cons p rest ih =>
    obtain ⟨k', v'⟩ := p
    simp only [pyInsert] at h
    by_cases hk : k' = k
    · simp only [hk, if_true, List.mem_cons, Prod.mk.injEq] at h
      rcases h with h | h
      · exact Or.inl h
      · exact Or.inr (List.mem_cons_of_mem _ h)
    · simp only [hk, if_false, List.mem_cons] at h
      rcases h with h | h
      · exact Or.inr (List.mem_cons.mpr (Or.inl h))
      · rcases ih h with h' | h'
        · exact Or.inl h'
        · exact Or.inr (List.mem_cons_of_mem _ h')

theorem pyInsert_lookup {α β : Type} [DecidableEq α] (l : List (α × β)) (k : α) (v : β) :
    pyLookup (pyInsert l k v) k = some v := by
  induction l with
  | nil => simp [pyInsert, pyLookup]
  | cons p rest ih =>
    obtain ⟨k', v'⟩ := p
    by_cases hk : k' = k
    · simp [pyInsert, pyLookup, hk]
    · simp [pyInsert, pyLookup, hk, ih]

/-- C2: for a container of header (0x90 bytes) followed by an encrypted
region whose length equals the big-endian 32-bit `max_crypt_length`
field at header offset 0x5C and then a tail, the envelope codec
decrypts exactly the encrypted region with the fixed key, concatenates
the decryption with the untouched tail, and outputs the header followed
by the inflation of that reassembly. -/
theorem C2_envelope_codec
    (decrypt : List Nat → List Nat → List Nat) (inflate : List Nat → Option (List Nat))
    (hdr enc tail : List Nat)
    (hlen : hdr.length = HEADER_LENGTH)
    (henc : enc.length = fromBE ((hdr.drop 0x5C).take 4)) :
    envelopeDecode decrypt inflate (hdr ++ enc ++ tail) =
      match inflate (decrypt CRYPTO_KEY enc ++ tail) with
      | some inflated => .ok (hdr ++ inflated)
      | none => .error .decompressionError := by
  have hheader : (hdr ++ (enc ++ tail)).take HEADER_LENGTH = hdr := List.take_left' hlen
  have hdrop : (hdr ++ (enc ++ tail)).drop HEADER_LENGTH = enc ++ tail := List.drop_left' hlen
  have hslice : ((hdr.drop 0x5C).take 4).length = 4 := by
    simp only [List.length_take, List.length_drop, hlen]
    decide
  have hdrop2 : (hdr ++ (enc ++ tail)).drop (enc.length + HEADER_LENGTH) = tail := by
    rw [← List.append_assoc]
    refine List.drop_left' ?_
    rw [List.length_append, hlen, Nat.add_comm]
  simp only [envelopeDecode]
  rw [List.append_assoc, hheader, hdrop, if_pos hslice, ← henc, List.take_left, hdrop2]

set_option maxRecDepth 10000 in
/-- C2 witness: a concrete 0x90-byte header declaring a 2-byte encrypted
region, followed by 2 encrypted bytes and a 1-byte tail, decoded with a
decrypt stub that adds one to each byte and an identity inflate. -/
theorem C2_envelope_codec_witness :
    envelopeDecode (fun _ c => c.map (fun b => b + 1)) (fun b => some b)
      ((List.replicate 92 0 ++ [0, 0, 0, 2] ++ List.replicate 48 0) ++ [10, 20] ++ [7]) =
      .ok ((List.replicate 92 0 ++ [0, 0, 0, 2] ++ List.replicate 48 0) ++ [11, 21, 7]) := by
  have h := C2_envelope_codec (fun _ c => c.map (fun b => b + 1)) (fun b => some b)
    (List.replicate 92 0 ++ [0, 0, 0, 2] ++ List.replicate 48 0) [10, 20] [7]
    (by decide) (by decide)
  exact h.trans (by decide)

/-- C3: the hohm decoder reads a u32 record length and a u32 type code
from the chunk body, takes as raw value the next
`record_length - body_length - 8` bytes of the record (read past the
walker's body slice), and — outside the fixed non-text type set — drops
the first 16 bytes and decodes the remainder: even length above 1 with a
zero first byte as Latin-1, even length above 1 with a zero last byte as
UTF-16 little-endian, anything else as Latin-1. -/
theorem C3_hohm_decode :
    (∀ (d d1 d2 outer : Cursor) (rl ty : Nat),
      d.read_uint = .ok (rl, d1) → d1.read_uint = .ok (ty, d2) →
      parse_hohm d outer =
        (if ty ∈ HOHM_ODD_TYPES then
          .ok (.hohm rl ty (.raw ((outer.readBytes ((rl : Int) - (d.buf.length : Int) - 8)).1)),
               (outer.readBytes ((rl : Int) - (d.buf.length : Int) - 8)).2)
        else
          match hohmTextDecode (((outer.readBytes ((rl : Int) - (d.buf.length : Int) - 8)).1).drop 16) with
          | .ok s => .ok (.hohm rl ty (.text s), (outer.readBytes ((rl : Int) - (d.buf.length : Int) - 8)).2)
          | .error e => .error e))
    ∧ (∀ (s : Cursor) (k : Int), 0 ≤ k →
        ((s.readBytes k).1).length = min k.toNat (s.buf.length - s.pos))
    ∧ (∀ bs : List Nat, 1 < bs.length → bs.length % 2 = 0 → bs.getD 0 1 = 0 →
        hohmTextDecode bs = .ok (latin1Decode bs))
    ∧ (∀ bs : List Nat, 1 < bs.length → bs.length % 2 = 0 → bs.getD 0 1 ≠ 0 →
        bs.getD (bs.length - 1) 1 = 0 →
        hohmTextDecode bs =
          match utf16leDecode bs with
          | some cs => .ok cs
          | none => .error .unicodeDecodeError)
    ∧ (∀ bs : List Nat, ¬(1 < bs.length ∧ bs.length % 2 = 0) →
        hohmTextDecode bs = .ok (latin1Decode bs)) := by
  refine ⟨?_, ?_, ?_, ?_, ?_⟩
  · intro d d1 d2 outer rl ty h1 h2
    have hbuf1 := (read_uint_ok d d1 rl h1).1
    have hbuf2 := (read_uint_ok d1 d2 ty h2).1
    simp only [parse_hohm, h1, h2, hbuf2, hbuf1]
  · intro s k hk
    have : ¬k < 0 := not_lt.mpr hk
    simp [Cursor.readBytes, this, List.length_take, List.length_drop]
  · intro bs h1 h2 h3
    rw [hohmTextDecode, if_pos ⟨h1, h2, h3⟩]
  · intro bs h1 h2 h3 h4
    rw [hohmTextDecode, if_neg (fun hc => h3 hc.2.2), if_pos ⟨h1, h2, h4⟩]
  · intro bs hc
    rw [hohmTextDecode, if_neg (fun h => hc ⟨h.1, h.2.1⟩),
      if_neg (fun h => hc ⟨h.1, h.2.1⟩)]

/-- C3 witness: concrete instances of every conjunct — a hohm body
declaring record length 28 and type code 2 over a 20-byte stream, a
short read count, and the three text-decode branches. -/
theorem C3_hohm_decode_witness :
    parse_hohm (Cursor.fresh ([0, 0, 0, 28] ++ [0, 0, 0, 2] ++ List.replicate 8 0) false)
        (Cursor.fresh (List.replicate 20 65) false) =
      .ok (.hohm 28 2 (.text []), ⟨List.replicate 20 65, 4, false⟩)
    ∧ ((Cursor.fresh [1, 2, 3] false).readBytes 5).1.length = min 5 3
    ∧ hohmTextDecode [0, 65] = .ok (latin1Decode [0, 65])
    ∧ hohmTextDecode [72, 0] =
        (match utf16leDecode [72, 0] with
         | some cs => .ok cs
         | none => .error .unicodeDecodeError)
    ∧ hohmTextDecode [65] = .ok (latin1Decode [65]) := by
  refine ⟨?_, ?_, ?_, ?_, ?_⟩
  · have h := C3_hohm_decode.1
      (Cursor.fresh ([0, 0, 0, 28] ++ [0, 0, 0, 2] ++ List.replicate 8 0) false)
      ⟨[0, 0, 0, 28] ++ [0, 0, 0, 2] ++ List.replicate 8 0, 4, false⟩
      ⟨[0, 0, 0, 28] ++ [0, 0, 0, 2] ++ List.replicate 8 0, 8, false⟩
      (Cursor.fresh (List.replicate 20 65) false) 28 2 (by decide) (by decide)
    exact h.trans (by decide)
  · exact C3_hohm_decode.2.1 (Cursor.fresh [1, 2, 3] false) 5 (by decide)
  · exact C3_hohm_decode.2.2.1 [0, 65] (by decide) (by decide) (by decide)
  · exact C3_hohm_decode.2.2.2.1 [72, 0] (by decide) (by decide) (by decide) (by decide)
  · exact C3_hohm_decode.2.2.2.2 [65] (by decide)

/-- C4: on a track-entry record the assembler commits a non-empty
in-progress track into the track table keyed by its song id (last write
wins on duplicate ids), starts a fresh accumulator holding only the new
song id (so no field leaks across the boundary), commits a pending
non-empty track at end of stream, and the four-record title scenario
yields the two expected tracks. -/
theorem C4_track_commit :
    (∀ (st : AsmState) (rl sb nid bt sid : Nat),
      st.track.isEmpty = false → st.track.song_id = some sid →
      asmStep st (.htim rl sb nid bt) =
        .ok { st with tracks := pyInsert st.tracks sid st.track,
                      track := { song_id := some nid } })
    ∧ (∀ (st : AsmState) (rl sb nid bt : Nat),
      st.track.isEmpty = true →
      asmStep st (.htim rl sb nid bt) = .ok { st with track := { song_id := some nid } })
    ∧ (∀ (tbl : List (Nat × Track)) (k : Nat) (v : Track),
      pyLookup (pyInsert tbl k v) k = some v)
    ∧ (∀ (st : AsmState) (sid : Nat) (res : Tables),
      st.track.isEmpty = false → st.track.song_id = some sid →
      finalCommit st = .ok res → res.1 = pyInsert st.tracks sid st.track)
    ∧ assemble [.htim 0 0 1 0, .hohm 0 HohmType.TITLE (.text (("A").data)),
        .htim 0 0 2 0, .hohm 0 HohmType.TITLE (.text (("B").data))] =
      .ok ([(1, { song_id := some 1, title := some (.text (("A").data)) }),
            (2, { song_id := some 2, title := some (.text (("B").data)) })], []) := by
  refine ⟨?_, ?_, ?_, ?_, by decide⟩
  · intro st rl sb nid bt sid h1 h2
    simp [asmStep, h1, h2]
  · intro st rl sb nid bt h1
    simp [asmStep, h1]
  · exact fun tbl k v => pyInsert_lookup tbl k v
  · intro st sid res h1 h2 h3
    dsimp only [finalCommit] at h3
    rw [show finalTracks st = .ok (pyInsert st.tracks sid st.track) from by
      simp [finalTracks, h1, h2]] at h3
    split at h3
    · exact Except.noConfusion h3
    · rename_i x tracks htr
      split at h3
      · exact Except.noConfusion h3
      · simp only [Except.ok.injEq] at h3 htr
        rw [← h3, ← htr]

/-- C4 witness: the commit, fresh-accumulator, last-write-wins and
end-of-stream conjuncts applied at concrete states. -/
theorem C4_track_commit_witness :
    asmStep ⟨{ song_id := some 7, title := some (.text (("T").data)) }, [], {}, []⟩
        (.htim 1 2 9 3) =
      .ok ⟨{ song_id := some 9 },
        [(7, { song_id := some 7, title := some (.text (("T").data)) })], {}, []⟩
    ∧ asmStep asmInit (.htim 1 2 9 3) = .ok ⟨{ song_id := some 9 }, [], {}, []⟩
    ∧ pyLookup (pyInsert [(7, ({ song_id := some 7 } : Track))] 7 { song_id := some 7, title := some (.text (("T").data)) }) 7 =
        some { song_id := some 7, title := some (.text (("T").data)) }
    ∧ ([(7, ({ song_id := some 7 } : Track))], ([] : List (HohmData × Playlist))).1 =
        pyInsert [] 7 ({ song_id := some 7 } : Track) := by
  refine ⟨?_, ?_, ?_, ?_⟩
  · have h := C4_track_commit.1 ⟨{ song_id := some 7, title := some (.text (("T").data)) }, [], {}, []⟩
      1 2 9 3 7 (by decide) (by decide)
    exact h.trans (by decide)
  · have h := C4_track_commit.2.1 asmInit 1 2 9 3 (by decide)
    exact h.trans (by decide)
  · exact C4_track_commit.2.2.1 [(7, { song_id := some 7 })] 7 _
  · exact C4_track_commit.2.2.2.1 ⟨{ song_id := some 7 }, [], {}, []⟩ 7
      ([(7, { song_id := some 7 })], []) (by decide) (by decide) (by decide)

/-- The playlist entry key a record contributes, if any. -/
def hptmKey : Record → Option Nat
  | .hptm k => some k
  | _ => none

theorem hptmKeys_eq (rs : List Record) : hptmKeys rs = rs.filterMap hptmKey := by
  unfold hptmKeys hptmKey
  rfl

theorem asmStep_playlist_items (st st1 : AsmState) (r : Record) (l : List Nat)
    (hr : r.isHpim = false) (hi : st.playlist.items = some l)
    (h : asmStep st r = .ok st1) :
    st1.playlist.items = some (l ++ hptmKeys [r]) := by
  cases r <;>
    first
    | (simp only [Record.isHpim] at hr; exact Bool.noConfusion hr)
    | (dsimp only [asmStep] at h
       repeat' split at h
       all_goals
         first
         | exact Except.noConfusion h
         | (simp only [Except.ok.injEq] at h
            rw [← h]
            simp_all [hptmKeys]))

theorem stepFold_playlist_items (mid : List Record) :
    ∀ (st st1 : AsmState) (l : List Nat),
      (∀ r ∈ mid, r.isHpim = false) →
      st.playlist.items = some l →
      stepFold st mid = .ok st1 →
      st1.playlist.items = some (l ++ hptmKeys mid) := by
  induction mid with
  | nil =>
    intro st st1 l _ hi h
    dsimp only [stepFold] at h
    simp only [Except.ok.injEq] at h
    rw [← h]
    simpa [hptmKeys] using hi
  | cons r rest ih =>
    intro st st1 l hall hi h
    dsimp only [stepFold] at h
    rcases ha : asmStep st r with e | st2
    · rw [ha] at h; exact Except.noConfusion h
    · rw [ha] at h
      have h1 := asmStep_playlist_items st st2 r l (hall r (by simp)) hi ha
      have h2 := ih st2 st1 (l ++ hptmKeys [r]) (fun x hx => hall x (by simp [hx])) h1 h
      rw [h2, hptmKeys_eq, hptmKeys_eq, hptmKeys_eq]
      cases hk : hptmKey r <;>
        simp [List.filterMap_cons, hk, List.append_assoc]

/-- C5: every playlist entry key is appended to the current playlist's
item list; over any span free of playlist-start records the item list
grows by exactly the entry keys in arrival order; the playlist is
committed keyed by its title on the next playlist-start record or at end
of stream; and the four-record scenario yields the playlist `Mix` with
items `[1, 2]`. -/
theorem C5_playlist_order :
    (∀ (st : AsmState) (k : Nat) (l : List Nat),
      st.playlist.items = some l →
      asmStep st (.hptm k) =
        .ok { st with playlist := { st.playlist with items := some (l ++ [k]) } })
    ∧ (∀ (mid : List Record) (st st1 : AsmState) (l : List Nat),
      (∀ r ∈ mid, r.isHpim = false) → st.playlist.items = some l →
      stepFold st mid = .ok st1 →
      st1.playlist.items = some (l ++ hptmKeys mid))
    ∧ (∀ (st : AsmState) (c : Nat) (t : HohmData),
      st.playlist.isEmpty = false → st.playlist.title = some t →
      asmStep st (.hpim c) =
        .ok { st with playlists := pyInsert st.playlists t st.playlist,
                      playlist := ⟨none, some []⟩ })
    ∧ (∀ (st : AsmState) (t : HohmData) (res : Tables),
      st.playlist.isEmpty = false → st.playlist.title = some t →
      finalCommit st = .ok res → res.2 = pyInsert st.playlists t st.playlist)
    ∧ assemble [.hpim 2, .hohm 0 HohmType.PLAYLIST_TITLE (.text (("Mix").data)),
        .hptm 1, .hptm 2] =
      .ok ([], [(.text (("Mix").data),
        { title := some (.text (("Mix").data)), items := some [1, 2] })]) := by
  refine ⟨?_, ?_, ?_, ?_, by decide⟩
  · intro st k l hi
    simp [asmStep, hi]
  · exact fun mid st st1 l h1 h2 h3 => stepFold_playlist_items mid st st1 l h1 h2 h3
  · intro st c t h1 h2
    simp [asmStep, h1, h2]
  · intro st t res h1 h2 h3
    dsimp only [finalCommit] at h3
    split at h3
    · exact Except.noConfusion h3
    · rename_i x tracks htr
      rw [show finalPlaylists st = .ok (pyInsert st.playlists t st.playlist) from by
        simp [finalPlaylists, h1, h2]] at h3
      simp only [Except.ok.injEq] at h3
      rw [← h3]

/-- C5 witness: the append, span-order, playlist-start-commit and
end-of-stream-commit conjuncts applied at concrete states. -/
theorem C5_playlist_order_witness :
    asmStep ⟨{}, [], ⟨none, some [5]⟩, []⟩ (.hptm 9) = .ok ⟨{}, [], ⟨none, some [5, 9]⟩, []⟩
    ∧ (⟨{ song_id := some 3 }, [], ⟨none, some [1, 2]⟩, []⟩ : AsmState).playlist.items =
        some ([] ++ hptmKeys [.hptm 1, .htim 0 0 3 0, .hptm 2])
    ∧ asmStep ⟨{}, [], ⟨some (.text (("M").data)), some [4]⟩, []⟩ (.hpim 0) =
        .ok ⟨{}, [], ⟨none, some []⟩,
          [(.text (("M").data), ⟨some (.text (("M").data)), some [4]⟩)]⟩
    ∧ (([], [(HohmData.text (("M").data),
        (⟨some (.text (("M").data)), some [4]⟩ : Playlist))]) : Tables).2 =
        pyInsert [] (.text (("M").data)) (⟨some (.text (("M").data)), some [4]⟩ : Playlist) := by
  refine ⟨?_, ?_, ?_, ?_⟩
  · have h := C5_playlist_order.1 ⟨{}, [], ⟨none, some [5]⟩, []⟩ 9 [5] (by decide)
    exact h.trans (by decide)
  · exact C5_playlist_order.2.1 [.hptm 1, .htim 0 0 3 0, .hptm 2]
      ⟨{}, [], ⟨none, some []⟩, []⟩ ⟨{ song_id := some 3 }, [], ⟨none, some [1, 2]⟩, []⟩ []
      (by decide) (by decide) (by decide)
  · have h := C5_playlist_order.2.2.1 ⟨{}, [], ⟨some (.text (("M").data)), some [4]⟩, []⟩ 0
      (.text (("M").data)) (by decide) (by decide)
    exact h.trans (by decide)
  · exact C5_playlist_order.2.2.2.1 ⟨{}, [], ⟨some (.text (("M").data)), some [4]⟩, []⟩
      (.text (("M").data)) ([], [(.text (("M").data), ⟨some (.text (("M").data)), some [4]⟩)])
      (by decide) (by decide) (by decide)

theorem resolveMethod_flipped_mono (t : List Char) (m : Method) (fl : Bool)
    (h : resolveMethod true t = some (m, fl)) : fl = true := by
  simp only [resolveMethod, if_true] at h
  rcases h1 : lookupMethod t.reverse with - | m1 <;> rw [h1] at h <;> dsimp only at h
  · rcases h2 : lookupMethod t.reverse.reverse with - | m2 <;> rw [h2] at h <;> dsimp only at h
    · exact Option.noConfusion h
    · simp only [Option.some.injEq, Prod.mk.injEq] at h
      exact h.2.symm
  · simp only [Option.some.injEq, Prod.mk.injEq] at h
    exact h.2.symm

/-- C6: once the byte-order flag is reversed it stays reversed — a walk
step from a flipped cursor yields a flipped cursor; a flipped cursor
reads its 32-bit integers little-endian; a flipped cursor resolves tags
against the reversed orientation first; and chunk body cursors inherit
the reversed flag. -/
theorem C6_flip_sticky :
    (∀ (s : Cursor) (r : Record) (s' : Cursor),
      s.flipped = true → parseStep s = .yield r s' → s'.flipped = true)
    ∧ (∀ (s : Cursor) (a b c e1 : Nat) (rest : List Nat),
      s.flipped = true → s.buf.drop s.pos = a :: b :: c :: e1 :: rest →
      s.read_uint = .ok (a + b * 256 + c * 65536 + e1 * 16777216, ⟨s.buf, s.pos + 4, true⟩))
    ∧ (∀ t : List Char,
      resolveMethod true t =
        (match lookupMethod t.reverse with
         | some m => some (m, true)
         | none =>
           match lookupMethod t with
           | some m => some (m, true)
           | none => none))
    ∧ (∀ (m : Method) (bs : List Nat) (o : Cursor),
      o.flipped = true →
      decodeWith m bs o =
        (match runMethod m (Cursor.fresh bs true) o with
         | .ok (r, o') => .yield r o'
         | .error e => .err e)) := by
  refine ⟨?_, ?_, ?_, ?_⟩
  · intro s r s' hf h
    dsimp only [parseStep] at h
    rcases ha : s.read_ascii 4 with e | ⟨t, s1⟩ <;> rw [ha] at h <;> dsimp only at h
    · exact StepRes.noConfusion h
    · have hf1 : s1.flipped = true := by rw [(read_ascii_ok s s1 4 t ha).2, hf]
      by_cases ht : t.isEmpty
      · rw [if_pos ht] at h; exact StepRes.noConfusion h
      · rw [if_neg ht] at h
        rcases hm : resolveMethod s1.flipped t with - | ⟨m, fl⟩ <;> rw [hm] at h <;>
          dsimp only at h
        · exact StepRes.noConfusion h
        · have hfl : fl = true := by
            rw [hf1] at hm
            exact resolveMethod_flipped_mono t m fl hm
          rcases hu : Cursor.read_uint ⟨s1.buf, s1.pos, fl⟩ with e | ⟨len, s3⟩ <;>
            rw [hu] at h <;> dsimp only at h
          · exact StepRes.noConfusion h
          · have hf3 : s3.flipped = true := by
              rw [(read_uint_ok _ s3 len hu).2.1]
              exact hfl
            dsimp only [decodeWith] at h
            rcases hr2 : runMethod m
                (Cursor.fresh ((s3.readBytes ((len : Int) - 8)).1)
                  ((s3.readBytes ((len : Int) - 8)).2).flipped)
                ((s3.readBytes ((len : Int) - 8)).2) with e | ⟨r2, o⟩ <;> rw [hr2] at h <;>
              dsimp only at h
            · exact StepRes.noConfusion h
            · simp only [StepRes.yield.injEq] at h
              rw [← h.2, runMethod_ok_flipped m _ _ o r2 hr2, readBytes_snd_flipped]
              exact hf3
  · intro s a b c e1 rest hf hbytes
    simp [Cursor.read_uint, Cursor.readBytes, hbytes, hf, fromLE]
  · intro t
    simp only [resolveMethod, if_true, List.reverse_reverse]
  · intro m bs o h
    dsimp only [decodeWith]
    rw [h]

/-- C6 witness: a flipped walk step over a reversed `hghm` chunk keeps
the flag set; a flipped 4-byte read is little-endian; the reversed tag
`mhgh` resolves to the `hghm` decoder with the flag kept; and a body
cursor built from a flipped outer cursor is flipped. -/
theorem C6_flip_sticky_witness :
    (⟨[109, 104, 103, 104, 8, 0, 0, 0], 8, true⟩ : Cursor).flipped = true
    ∧ Cursor.read_uint ⟨[1, 2, 3, 4], 0, true⟩ =
        .ok (1 + 2 * 256 + 3 * 65536 + 4 * 16777216, ⟨[1, 2, 3, 4], 4, true⟩)
    ∧ resolveMethod true (("mhgh").data) = some (.hghm, true)
    ∧ decodeWith .hghm [] ⟨[7], 1, true⟩ = .yield .hghm ⟨[7], 1, true⟩ := by
  refine ⟨?_, ?_, ?_, ?_⟩
  · exact C6_flip_sticky.1 ⟨[109, 104, 103, 104, 8, 0, 0, 0], 0, true⟩ .hghm
      ⟨[109, 104, 103, 104, 8, 0, 0, 0], 8, true⟩ rfl (by decide)
  · exact C6_flip_sticky.2.1 ⟨[1, 2, 3, 4], 0, true⟩ 1 2 3 4 [] rfl rfl
  · exact (C6_flip_sticky.2.2.1 (("mhgh").data)).trans (by decide)
  · exact (C6_flip_sticky.2.2.2 .hghm [] ⟨[7], 1, true⟩ rfl).trans (by decide)

/-- C7: a 4-byte tag recognized in neither orientation resolves to no
method, makes the walk step raise the unknown-record-type error, any
step error aborts the whole walk (errors propagate out of every
surrounding loop iteration), and a walk error yields an error — never
tables — from the plaintext decode. -/
theorem C7_unknown_tag_aborts :
    (∀ (fl : Bool) (t : List Char),
      lookupMethod t = none → lookupMethod t.reverse = none →
      resolveMethod fl t = none)
    ∧ (∀ (s s1 : Cursor) (t : List Char),
      s.read_ascii 4 = .ok (t, s1) → t.isEmpty = false →
      resolveMethod s1.flipped t = none →
      parseStep s = .err (.unknownRecordType (if s1.flipped then t.reverse else t)))
    ∧ (∀ (fuel : Nat) (s : Cursor) (e : ParseErr),
      parseStep s = .err e → parseLoop (fuel + 1) s = .error e)
    ∧ (∀ (fuel : Nat) (s : Cursor) (r : Record) (s' : Cursor) (e : ParseErr),
      parseStep s = .yield r s' → parseLoop fuel s' = .error e →
      parseLoop (fuel + 1) s = .error e)
    ∧ (∀ (bytes : List Nat) (e : ParseErr),
      parseRecords bytes = .error e →
      decodeLibraryPlain bytes = .error (.parse e)) := by
  refine ⟨?_, ?_, ?_, ?_, ?_⟩
  · intro fl t h1 h2
    cases fl <;> simp [resolveMethod, h1, h2, List.reverse_reverse]
  · intro s s1 t ha hemp hm
    dsimp only [parseStep]
    rw [ha]
    dsimp only
    rw [if_neg (by rw [hemp]; exact Bool.noConfusion), hm]
  · intro fuel s e h
    dsimp only [parseLoop]
    rw [h]
  · intro fuel s r s' e h1 h2
    dsimp only [parseLoop]
    rw [h1]
    dsimp only
    rw [h2]
  · intro bytes e h
    dsimp only [decodeLibraryPlain]
    rw [h]

/-- C7 witness: the unknown tag `zzzz` at the start of a stream — no
method in either orientation, an unknown-record-type step error, the
error propagated through the loop (also from under a preceding good
chunk), and an error — not tables — from the plaintext decode. -/
theorem C7_unknown_tag_aborts_witness :
    resolveMethod false (("zzzz").data) = none
    ∧ parseStep (Cursor.fresh [122, 122, 122, 122] false) =
        .err (.unknownRecordType (("zzzz").data))
    ∧ parseLoop 1 (Cursor.fresh [122, 122, 122, 122] false) =
        .error (.unknownRecordType (("zzzz").data))
    ∧ parseLoop 2 (Cursor.fresh ([104, 103, 104, 109] ++ [0, 0, 0, 8] ++ [122, 122, 122, 122]) false) =
        .error (.unknownRecordType (("zzzz").data))
    ∧ decodeLibraryPlain [122, 122, 122, 122] =
        .error (.parse (.unknownRecordType (("zzzz").data))) := by
  refine ⟨?_, ?_, ?_, ?_, ?_⟩
  · exact C7_unknown_tag_aborts.1 false (("zzzz").data) (by decide) (by decide)
  · exact (C7_unknown_tag_aborts.2.1 (Cursor.fresh [122, 122, 122, 122] false)
      ⟨[122, 122, 122, 122], 4, false⟩ (("zzzz").data) (by decide) (by decide)
      (by decide)).trans (by decide)
  · exact C7_unknown_tag_aborts.2.2.1 0 (Cursor.fresh [122, 122, 122, 122] false)
      (.unknownRecordType (("zzzz").data)) (by decide)
  · exact C7_unknown_tag_aborts.2.2.2.1 1
      (Cursor.fresh ([104, 103, 104, 109] ++ [0, 0, 0, 8] ++ [122, 122, 122, 122]) false)
      .hghm ⟨[104, 103, 104, 109] ++ [0, 0, 0, 8] ++ [122, 122, 122, 122], 8, false⟩
      (.unknownRecordType (("zzzz").data)) (by decide) (by decide)
  · exact C7_unknown_tag_aborts.2.2.2.2 [122, 122, 122, 122]
      (.unknownRecordType (("zzzz").data)) (by decide)

/-- C8 counterexample: a `hghm` chunk whose declared 32-bit length field
is 0 — smaller than the 8-byte tag-plus-length header — does not make
the decoder fail: the negative body count reads to the end of the
stream and the walk completes, yielding the record.  No malformed-length
error exists in the code. -/
theorem C8_malformed_length_counterexample :
    parseRecords ([104, 103, 104, 109] ++ [0, 0, 0, 0] ++ [1, 2, 3]) = .ok [.hghm] := by
  decide

/-- C8 amended: a declared chunk length below 8 produces a negative body
count, which the cursor treats as read-to-end (`BytesIO` semantics): the
walker hands the entire remainder of the stream to the decoder as the
chunk body and continues without error; and a concrete `htlm` chunk with
declared length 3 parses successfully. -/
theorem C8_negative_length_reads_to_end :
    (∀ (s : Cursor) (n : Int), n < 0 →
      s.readBytes n =
        (s.buf.drop s.pos, ⟨s.buf, s.pos + (s.buf.drop s.pos).length, s.flipped⟩))
    ∧ (∀ (s s1 : Cursor) (t : List Char) (m : Method) (fl : Bool) (len : Nat) (s3 : Cursor),
      s.read_ascii 4 = .ok (t, s1) → t.isEmpty = false →
      resolveMethod s1.flipped t = some (m, fl) →
      Cursor.read_uint ⟨s1.buf, s1.pos, fl⟩ = .ok (len, s3) →
      (len : Int) - 8 < 0 →
      parseStep s =
        decodeWith m (s3.buf.drop s3.pos)
          ⟨s3.buf, s3.pos + (s3.buf.drop s3.pos).length, s3.flipped⟩)
    ∧ parseRecords ([104, 116, 108, 109] ++ [0, 0, 0, 3] ++ [9, 9, 9, 9, 9]) = .ok [.htlm] := by
  refine ⟨?_, ?_, by decide⟩
  · intro s n h
    simp [Cursor.readBytes, h]
  · intro s s1 t m fl len s3 ha hemp hm hu hneg
    dsimp only [parseStep]
    rw [ha]
    dsimp only
    rw [if_neg (by rw [hemp]; exact Bool.noConfusion), hm]
    dsimp only
    rw [hu]
    dsimp only
    rw [show s3.readBytes ((len : Int) - 8) =
        (s3.buf.drop s3.pos, ⟨s3.buf, s3.pos + (s3.buf.drop s3.pos).length, s3.flipped⟩) from by
      simp [Cursor.readBytes, hneg]]

/-- C8 witness: a negative read returns everything up to the end of the
buffer, and a `hghm` chunk with declared length 7 makes the step consume
the 2-byte remainder as the body and yield the record. -/
theorem C8_negative_length_reads_to_end_witness :
    Cursor.readBytes ⟨[5, 6, 7], 1, false⟩ (-8) = ([6, 7], ⟨[5, 6, 7], 3, false⟩)
    ∧ parseStep (Cursor.fresh ([104, 103, 104, 109] ++ [0, 0, 0, 7] ++ [9, 9]) false) =
        .yield .hghm ⟨[104, 103, 104, 109] ++ [0, 0, 0, 7] ++ [9, 9], 10, false⟩ := by
  refine ⟨?_, ?_⟩
  · exact (C8_negative_length_reads_to_end.1 ⟨[5, 6, 7], 1, false⟩ (-8)
      (by decide)).trans (by decide)
  · exact (C8_negative_length_reads_to_end.2.1
      (Cursor.fresh ([104, 103, 104, 109] ++ [0, 0, 0, 7] ++ [9, 9]) false)
      ⟨[104, 103, 104, 109] ++ [0, 0, 0, 7] ++ [9, 9], 4, false⟩
      (("hghm").data) .hghm false 7
      ⟨[104, 103, 104, 109] ++ [0, 0, 0, 7] ++ [9, 9], 8, false⟩
      (by decide) (by decide) (by decide) (by decide) (by decide)).trans (by decide)

/-- C9 counterexample: a cursor holding only 2 bytes answers a 4-byte
read, ascii read and skip by returning the 2 available bytes without
any error — the byte cursor does not fail on short reads. -/
theorem C9_short_read_counterexample :
    Cursor.readBytes ⟨[65, 66], 0, false⟩ 4 = ([65, 66], ⟨[65, 66], 2, false⟩)
    ∧ Cursor.read_ascii ⟨[65, 66], 0, false⟩ 4 = .ok ((("AB").data), ⟨[65, 66], 2, false⟩)
    ∧ Cursor.skip ⟨[65, 66], 0, false⟩ 4 = ⟨[65, 66], 2, false⟩ := by
  decide

/-- C9 amended: when more bytes are requested than remain, `read_bytes`,
`skip` and `read_ascii` succeed on exactly the remaining bytes
(`BytesIO` short-read semantics) instead of failing; only `read_uint`
fails (a struct error) when fewer than 4 bytes remain, and `read_byte`
(an index error) when none remain. -/
theorem C9_short_read_semantics :
    (∀ (s : Cursor) (n : Int), 0 ≤ n → ((s.buf.drop s.pos).length : Int) < n →
      s.readBytes n =
        (s.buf.drop s.pos, ⟨s.buf, s.pos + (s.buf.drop s.pos).length, s.flipped⟩))
    ∧ (∀ (s : Cursor) (n : Int), 0 ≤ n → ((s.buf.drop s.pos).length : Int) < n →
      s.skip n = ⟨s.buf, s.pos + (s.buf.drop s.pos).length, s.flipped⟩)
    ∧ (∀ (s : Cursor) (n : Int) (t : List Char), 0 ≤ n → ((s.buf.drop s.pos).length : Int) < n →
      asciiDecode (s.buf.drop s.pos) = some t →
      s.read_ascii n = .ok (t, ⟨s.buf, s.pos + (s.buf.drop s.pos).length, s.flipped⟩))
    ∧ (∀ s : Cursor, (s.buf.drop s.pos).length < 4 → s.read_uint = .error .structError)
    ∧ (∀ s : Cursor, s.buf.drop s.pos = [] → s.read_byte = .error .indexError) := by
  have hfull : ∀ (s : Cursor) (n : Int), 0 ≤ n → ((s.buf.drop s.pos).length : Int) < n →
      s.readBytes n =
        (s.buf.drop s.pos, ⟨s.buf, s.pos + (s.buf.drop s.pos).length, s.flipped⟩) := by
    intro s n h1 h2
    have hn : ¬n < 0 := not_lt.mpr h1
    have hle : (s.buf.drop s.pos).length ≤ n.toNat := by omega
    simp [Cursor.readBytes, hn, List.take_of_length_le hle]
  refine ⟨hfull, ?_, ?_, ?_, ?_⟩
  · intro s n h1 h2
    dsimp only [Cursor.skip]
    rw [hfull s n h1 h2]
  · intro s n t h1 h2 h3
    dsimp only [Cursor.read_ascii]
    rw [hfull s n h1 h2]
    dsimp only
    rw [h3]
  · intro s h
    have hlen : ¬(((s.readBytes 4).1).length = 4) := by
      have : ¬(4 : Int) < 0 := by decide
      simp only [Cursor.readBytes, this, if_false, List.length_take]
      omega
    simp only [Cursor.read_uint, hlen, if_false]
  · intro s h
    dsimp only [Cursor.read_byte, Cursor.readBytes]
    rw [h]
    simp

/-- C9 witness: the short-read, short-skip, short-ascii, short-uint and
empty-byte conjuncts at concrete cursors. -/
theorem C9_short_read_semantics_witness :
    Cursor.readBytes ⟨[1, 2, 3], 1, false⟩ 9 = ([2, 3], ⟨[1, 2, 3], 3, false⟩)
    ∧ Cursor.skip ⟨[1, 2, 3], 1, false⟩ 9 = ⟨[1, 2, 3], 3, false⟩
    ∧ Cursor.read_ascii ⟨[65], 0, false⟩ 3 = .ok ((("A").data), ⟨[65], 1, false⟩)
    ∧ Cursor.read_uint ⟨[1, 2], 0, false⟩ = .error .structError
    ∧ Cursor.read_byte ⟨[1], 1, false⟩ = .error .indexError := by
  refine ⟨?_, ?_, ?_, ?_, ?_⟩
  · exact (C9_short_read_semantics.1 ⟨[1, 2, 3], 1, false⟩ 9 (by decide) (by decide)).trans
      (by decide)
  · exact (C9_short_read_semantics.2.1 ⟨[1, 2, 3], 1, false⟩ 9 (by decide) (by decide)).trans
      (by decide)
  · exact (C9_short_read_semantics.2.2.1 ⟨[65], 0, false⟩ 3 (("A").data) (by decide) (by decide)
      (by decide)).trans (by decide)
  · exact C9_short_read_semantics.2.2.2.1 ⟨[1, 2], 0, false⟩ (by decide)
  · exact C9_short_read_semantics.2.2.2.2 ⟨[1], 1, false⟩ (by decide)

/-- The record-stream fold followed by the end-of-stream commits,
starting from an arbitrary state. -/
def assembleFrom (st : AsmState) (recs : List Record) : Except AsmErr Tables :=
  match stepFold st recs with
  | .ok st' => finalCommit st'
  | .error e => .error e

theorem assemble_eq_assembleFrom (recs : List Record) :
    assemble recs = assembleFrom asmInit recs := rfl

theorem assembleFrom_append (st : AsmState) (a b : List Record) :
    assembleFrom st (a ++ b) =
      match stepFold st a with
      | .ok st' => assembleFrom st' b
      | .error e => .error e := by
  dsimp only [assembleFrom]
  rw [stepFold_append]
  rcases h : stepFold st a with e | st' <;> rfl

theorem asmStep_hpim_ok (st st' : AsmState) (c : Nat)
    (h : asmStep st (.hpim c) = .ok st') : st'.playlist = ⟨none, some []⟩ := by
  dsimp only [asmStep] at h
  repeat' split at h
  all_goals
    first
    | exact Except.noConfusion h
    | (simp only [Except.ok.injEq] at h; rw [← h])

theorem asmStep_hpim_untitled (st : AsmState) (c : Nat)
    (h1 : st.playlist.title = none) (h2 : (st.playlist.items).isSome = true) :
    asmStep st (.hpim c) = .error (.keyError .title) := by
  have hne : st.playlist.isEmpty = false := by
    rcases hi : st.playlist.items with - | l
    · rw [hi] at h2; exact Bool.noConfusion h2
    · simp [Playlist.isEmpty, hi]
  simp [asmStep, hne, h1]

theorem asmStep_untitled (st st1 : AsmState) (r : Record)
    (hr : r.isHpim = false) (hp : r.isPlaylistTitleHohm = false)
    (h : asmStep st r = .ok st1) (h1 : st.playlist.title = none)
    (h2 : (st.playlist.items).isSome = true) :
    st1.playlist.title = none ∧ (st1.playlist.items).isSome = true := by
  cases r <;>
    first
    | (simp only [Record.isHpim] at hr; exact Bool.noConfusion hr)
    | (dsimp only [asmStep] at h
       repeat' split at h
       all_goals
         first
         | exact Except.noConfusion h
         | (simp only [Except.ok.injEq] at h; rw [← h]; exact ⟨h1, h2⟩)
         | (simp only [Except.ok.injEq] at h; rw [← h]; exact ⟨h1, by simp⟩)
         | simp_all [Record.isPlaylistTitleHohm])

theorem stepFold_untitled (mid : List Record) :
    ∀ st : AsmState,
      (∀ r ∈ mid, r.isHpim = false ∧ r.isPlaylistTitleHohm = false) →
      st.playlist.title = none → (st.playlist.items).isSome = true →
      (∃ e, stepFold st mid = .error e) ∨
      (∃ st', stepFold st mid = .ok st' ∧ st'.playlist.title = none ∧
        (st'.playlist.items).isSome = true) := by
  induction mid with
  | nil => intro st _ h1 h2; exact Or.inr ⟨st, rfl, h1, h2⟩
  | cons r rest ih =>
    intro st hall h1 h2
    rcases ha : asmStep st r with e | st2
    · refine Or.inl ⟨e, ?_⟩
      dsimp only [stepFold]
      rw [ha]
    · have hsub := asmStep_untitled st st2 r (hall r (by simp)).1 (hall r (by simp)).2 ha h1 h2
      rcases ih st2 (fun x hx => hall x (by simp [hx])) hsub.1 hsub.2 with ⟨e, he⟩ | ⟨st', hok, ht, hi⟩
      · refine Or.inl ⟨e, ?_⟩
        dsimp only [stepFold]
        rw [ha]
        dsimp only
        exact he
      · refine Or.inr ⟨st', ?_, ht, hi⟩
        dsimp only [stepFold]
        rw [ha]
        dsimp only
        exact hok

theorem finalCommit_untitled (st : AsmState)
    (h1 : st.playlist.title = none) (h2 : (st.playlist.items).isSome = true) :
    ∃ f, finalCommit st = .error (.keyError f) := by
  have hfp : finalPlaylists st = .error (.keyError .title) := by
    have hne : st.playlist.isEmpty = false := by
      rcases hi : st.playlist.items with - | l
      · rw [hi] at h2; exact Bool.noConfusion h2
      · simp [Playlist.isEmpty, hi]
    simp [finalPlaylists, hne, h1]
  dsimp only [finalCommit]
  rcases ht : finalTracks st with e | tracks
  · obtain ⟨f⟩ := e
    exact ⟨f, rfl⟩
  · exact ⟨.title, by dsimp only; rw [hfp]⟩

/-- A playlist title already accounted for by the assembler state:
either committed into the playlists table or set on the current
accumulator. -/
def titleJustified (st : AsmState) (t : HohmData) : Prop :=
  (∃ pl, (t, pl) ∈ st.playlists) ∨ st.playlist.title = some t

theorem asmStep_playlist_shape (st st1 : AsmState) (r : Record)
    (h : asmStep st r = .ok st1) :
    (r.isHpim = false ∧ st1.playlists = st.playlists ∧
        st1.playlist.title = st.playlist.title)
    ∨ (∃ rl d, r = .hohm rl HohmType.PLAYLIST_TITLE d ∧ st1.playlists = st.playlists ∧
        st1.playlist.title = some d)
    ∨ ((∃ c, r = .hpim c) ∧ st1.playlists = st.playlists ∧ st1.playlist.title = none)
    ∨ (∃ c t0, r = .hpim c ∧ st.playlist.title = some t0 ∧
        st1.playlists = pyInsert st.playlists t0 st.playlist ∧ st1.playlist.title = none) := by
  cases r <;> dsimp only [asmStep] at h <;> (repeat' split at h) <;>
    first
    | exact Except.noConfusion h
    | (simp only [Except.ok.injEq] at h
       subst h
       first
       | exact Or.inl ⟨rfl, rfl, rfl⟩
       | (rename_i hty
          exact Or.inr (Or.inl ⟨_, _, by rw [hty], rfl, rfl⟩))
       | exact Or.inr (Or.inr (Or.inl ⟨⟨_, rfl⟩, rfl, rfl⟩))
       | (rename_i t0 ht0
          exact Or.inr (Or.inr (Or.inr ⟨_, t0, rfl, ht0, rfl, rfl⟩))))

theorem asmStep_title_src (st st1 : AsmState) (r : Record) (t : HohmData)
    (h : asmStep st r = .ok st1) (hj : titleJustified st1 t) :
    titleJustified st t ∨ ∃ rl, r = .hohm rl HohmType.PLAYLIST_TITLE t := by
  rcases asmStep_playlist_shape st st1 r h with ⟨-, hp, ht⟩ | ⟨rl, d, hr, hp, ht⟩ |
    ⟨-, hp, ht⟩ | ⟨c, t0, -, h0, hp, ht⟩
  · rcases hj with hl | hr2
    · exact Or.inl (Or.inl (hp ▸ hl))
    · exact Or.inl (Or.inr (ht ▸ hr2))
  · rcases hj with hl | hr2
    · exact Or.inl (Or.inl (hp ▸ hl))
    · rw [ht] at hr2
      obtain rfl := Option.some.inj hr2
      exact Or.inr ⟨rl, hr⟩
  · rcases hj with hl | hr2
    · exact Or.inl (Or.inl (hp ▸ hl))
    · rw [ht] at hr2
      exact Option.noConfusion hr2
  · rcases hj with ⟨pl, hmem⟩ | hr2
    · rw [hp] at hmem
      rcases pyInsert_mem _ _ _ _ _ hmem with ⟨rfl, -⟩ | hold
      · exact Or.inl (Or.inr h0)
      · exact Or.inl (Or.inl ⟨pl, hold⟩)
    · rw [ht] at hr2
      exact Option.noConfusion hr2

theorem stepFold_title_src (recs : List Record) :
    ∀ (st st1 : AsmState) (t : HohmData),
      stepFold st recs = .ok st1 → titleJustified st1 t →
      titleJustified st t ∨ ∃ rl, Record.hohm rl HohmType.PLAYLIST_TITLE t ∈ recs := by
  induction recs with
  | nil =>
    intro st st1 t h hj
    dsimp only [stepFold] at h
    simp only [Except.ok.injEq] at h
    subst h
    exact Or.inl hj
  | cons r rest ih =>
    intro st st1 t h hj
    dsimp only [stepFold] at h
    rcases ha : asmStep st r with e | st2 <;> rw [ha] at h <;> dsimp only at h
    · exact Except.noConfusion h
    · rcases ih st2 st1 t h hj with hj2 | ⟨rl, hmem⟩
      · rcases asmStep_title_src st st2 r t ha hj2 with hj3 | ⟨rl, hr⟩
        · exact Or.inl hj3
        · refine Or.inr ⟨rl, ?_⟩
          rw [hr]
          exact List.mem_cons_self _ _
      · exact Or.inr ⟨rl, List.mem_cons_of_mem _ hmem⟩

theorem finalPlaylists_shape (st : AsmState) (pls : List (HohmData × Playlist))
    (h : finalPlaylists st = .ok pls) :
    pls = st.playlists ∨
      ∃ t0, st.playlist.title = some t0 ∧ pls = pyInsert st.playlists t0 st.playlist := by
  dsimp only [finalPlaylists] at h
  split at h
  · simp only [Except.ok.injEq] at h
    exact Or.inl h.symm
  · split at h
    · rename_i t0 ht0
      simp only [Except.ok.injEq] at h
      exact Or.inr ⟨t0, ht0, h.symm⟩
    · exact Except.noConfusion h

theorem finalCommit_title_src (st : AsmState) (tb : Tables) (t : HohmData) (pl : Playlist)
    (h : finalCommit st = .ok tb) (hmem : (t, pl) ∈ tb.2) : titleJustified st t := by
  dsimp only [finalCommit] at h
  rcases ht : finalTracks st with e | tracks <;> rw [ht] at h <;> dsimp only at h
  · exact Except.noConfusion h
  · rcases hfp : finalPlaylists st with e | pls <;> rw [hfp] at h <;> dsimp only at h
    · exact Except.noConfusion h
    · simp only [Except.ok.injEq] at h
      subst h
      rcases finalPlaylists_shape st pls hfp with hsame | ⟨t0, ht0, hins⟩
      · rw [hsame] at hmem
        exact Or.inl ⟨pl, hmem⟩
      · rw [hins] at hmem
        rcases pyInsert_mem _ _ _ _ _ hmem with ⟨rfl, -⟩ | hold
        · exact Or.inr ht0
        · exact Or.inl ⟨pl, hold⟩

/-- A valid left boundary for an accumulation span: the start of the
stream, or anything ending in a playlist-start record. -/
def spanOpener (a0 : List Record) : Prop :=
  a0 = [] ∨ ∃ a0' c0, a0 = a0' ++ [Record.hpim c0]

/-- The title `t` is carried by a `PLAYLIST_TITLE` record lying inside a
complete accumulation span that is closed by a playlist-start record:
the stretch between the boundary and that closing record is free of
playlist-start records. -/
def titledInClosedSpan (recs : List Record) (t : HohmData) : Prop :=
  ∃ a0 mid c rest, recs = a0 ++ (mid ++ (Record.hpim c :: rest)) ∧
    spanOpener a0 ∧ (∀ r ∈ mid, r.isHpim = false) ∧
    ∃ rl, Record.hohm rl HohmType.PLAYLIST_TITLE t ∈ mid

/-- The title `t` is carried by a `PLAYLIST_TITLE` record lying inside
the final accumulation span, closed by the end of the stream. -/
def titledInFinalSpan (recs : List Record) (t : HohmData) : Prop :=
  ∃ a0 mid, recs = a0 ++ mid ∧ spanOpener a0 ∧ (∀ r ∈ mid, r.isHpim = false) ∧
    ∃ rl, Record.hohm rl HohmType.PLAYLIST_TITLE t ∈ mid

theorem exists_span_decomp (l : List Record) :
    ∃ a0 mid, l = a0 ++ mid ∧ spanOpener a0 ∧ ∀ r ∈ mid, r.isHpim = false := by
  induction l using List.reverseRecOn with
  | nil => exact ⟨[], [], rfl, Or.inl rfl, by simp⟩
  | append_singleton l r ih =>
    by_cases hr : r.isHpim = true
    · obtain ⟨c, rfl⟩ : ∃ c, r = Record.hpim c := by
        cases r <;>
          first
          | exact ⟨_, rfl⟩
          | exact Bool.noConfusion hr
      exact ⟨l ++ [Record.hpim c], [], by simp, Or.inr ⟨l, c, rfl⟩, by simp⟩
    · obtain ⟨a0, mid, heq, hop, hfree⟩ := ih
      refine ⟨a0, mid ++ [r], by rw [heq, List.append_assoc], hop, ?_⟩
      intro x hx
      rcases List.mem_append.mp hx with h | h
      · exact hfree x h
      · rw [List.mem_singleton.mp h]
        exact Bool.eq_false_iff.mpr (fun hc => hr hc)

theorem titledInClosedSpan_snoc (l : List Record) (r : Record) (t : HohmData)
    (h : titledInClosedSpan l t) : titledInClosedSpan (l ++ [r]) t := by
  obtain ⟨a0, mid, c, rest, heq, hop, hfree, hpt⟩ := h
  refine ⟨a0, mid, c, rest ++ [r], ?_, hop, hfree, hpt⟩
  rw [heq]
  simp [List.append_assoc]

theorem titledInFinalSpan_snoc (l : List Record) (r : Record) (t : HohmData)
    (hr : r.isHpim = false) (h : titledInFinalSpan l t) :
    titledInFinalSpan (l ++ [r]) t := by
  obtain ⟨a0, mid, heq, hop, hfree, hpt⟩ := h
  refine ⟨a0, mid ++ [r], by rw [heq, List.append_assoc], hop, ?_, ?_⟩
  · intro x hx
    rcases List.mem_append.mp hx with hm | hm
    · exact hfree x hm
    · rw [List.mem_singleton.mp hm]
      exact hr
  · obtain ⟨rl, hmem⟩ := hpt
    exact ⟨rl, List.mem_append_left _ hmem⟩

theorem titledInFinalSpan_append_pt (l : List Record) (rl : Nat) (d : HohmData) :
    titledInFinalSpan (l ++ [Record.hohm rl HohmType.PLAYLIST_TITLE d]) d := by
  obtain ⟨a0, mid, heq, hop, hfree⟩ := exists_span_decomp l
  refine ⟨a0, mid ++ [Record.hohm rl HohmType.PLAYLIST_TITLE d],
    by rw [heq, List.append_assoc], hop, ?_, ⟨rl, by simp⟩⟩
  intro x hx
  rcases List.mem_append.mp hx with hm | hm
  · exact hfree x hm
  · rw [List.mem_singleton.mp hm]
    rfl

theorem titledInClosedSpan_of_final (l : List Record) (c : Nat) (t : HohmData)
    (h : titledInFinalSpan l t) : titledInClosedSpan (l ++ [Record.hpim c]) t := by
  obtain ⟨a0, mid, heq, hop, hfree, hpt⟩ := h
  refine ⟨a0, mid, c, [], ?_, hop, hfree, hpt⟩
  rw [heq]
  simp [List.append_assoc]

theorem asmStep_span_inv (processed : List Record) (st st2 : AsmState) (r : Record)
    (ha : asmStep st r = .ok st2)
    (h1 : ∀ t, st.playlist.title = some t → titledInFinalSpan processed t)
    (h2 : ∀ t pl, (t, pl) ∈ st.playlists → titledInClosedSpan processed t) :
    (∀ t, st2.playlist.title = some t → titledInFinalSpan (processed ++ [r]) t) ∧
    (∀ t pl, (t, pl) ∈ st2.playlists → titledInClosedSpan (processed ++ [r]) t) := by
  rcases asmStep_playlist_shape st st2 r ha with ⟨hrnot, hp, ht⟩ | ⟨rl, d, hr, hp, ht⟩ |
    ⟨⟨c, hr⟩, hp, ht⟩ | ⟨c, t0, hr, h0, hp, ht⟩
  · constructor
    · intro t htt
      rw [ht] at htt
      exact titledInFinalSpan_snoc processed r t hrnot (h1 t htt)
    · intro t pl hmem
      rw [hp] at hmem
      exact titledInClosedSpan_snoc processed r t (h2 t pl hmem)
  · subst hr
    constructor
    · intro t htt
      rw [ht] at htt
      obtain rfl := Option.some.inj htt
      exact titledInFinalSpan_append_pt processed rl _
    · intro t pl hmem
      rw [hp] at hmem
      exact titledInClosedSpan_snoc processed _ t (h2 t pl hmem)
  · constructor
    · intro t htt
      rw [ht] at htt
      exact Option.noConfusion htt
    · intro t pl hmem
      rw [hp] at hmem
      exact titledInClosedSpan_snoc processed r t (h2 t pl hmem)
  · subst hr
    constructor
    · intro t htt
      rw [ht] at htt
      exact Option.noConfusion htt
    · intro t pl hmem
      rw [hp] at hmem
      rcases pyInsert_mem _ _ _ _ _ hmem with ⟨rfl, -⟩ | hold
      · exact titledInClosedSpan_of_final processed c t (h1 t h0)
      · exact titledInClosedSpan_snoc processed _ t (h2 t pl hold)

theorem stepFold_span_inv (rest : List Record) :
    ∀ (processed : List Record) (st st1 : AsmState),
      (∀ t, st.playlist.title = some t → titledInFinalSpan processed t) →
      (∀ t pl, (t, pl) ∈ st.playlists → titledInClosedSpan processed t) →
      stepFold st rest = .ok st1 →
      (∀ t, st1.playlist.title = some t → titledInFinalSpan (processed ++ rest) t) ∧
      (∀ t pl, (t, pl) ∈ st1.playlists → titledInClosedSpan (processed ++ rest) t) := by
  induction rest with
  | nil =>
    intro processed st st1 h1 h2 h
    dsimp only [stepFold] at h
    simp only [Except.ok.injEq] at h
    subst h
    rw [List.append_nil]
    exact ⟨h1, h2⟩
  | cons r rest' ih =>
    intro processed st st1 h1 h2 h
    dsimp only [stepFold] at h
    rcases ha : asmStep st r with e | st2 <;> rw [ha] at h <;> dsimp only at h
    · exact Except.noConfusion h
    · obtain ⟨g1, g2⟩ := asmStep_span_inv processed st st2 r ha h1 h2
      have hres := ih (processed ++ [r]) st2 st1 g1 g2 h
      rwa [List.append_assoc] at hres

/-- C10 counterexample: a `PLAYLIST_TITLE` field arriving before any
playlist-start record is committed at the first playlist-start — the run
succeeds and the output contains playlist `X`, yet no `PLAYLIST_TITLE`
record carrying `X` lies after any playlist-start record, so `X` did not
receive its title from a field inside a span opened by a
PlaylistItemCount. -/
theorem C10_span_counterexample :
    assemble [.hohm 0 HohmType.PLAYLIST_TITLE (.text (("X").data)), .hpim 0,
        .hohm 0 HohmType.PLAYLIST_TITLE (.text (("Y").data))] =
      .ok ([], [(.text (("X").data), ⟨some (.text (("X").data)), none⟩),
        (.text (("Y").data), ⟨some (.text (("Y").data)), some []⟩)])
    ∧ ¬∃ (i j : Fin 3), (i : Nat) < (j : Nat) ∧
        (([Record.hohm 0 HohmType.PLAYLIST_TITLE (.text (("X").data)), .hpim 0,
          .hohm 0 HohmType.PLAYLIST_TITLE (.text (("Y").data))].get i).isHpim = true) ∧
        ([Record.hohm 0 HohmType.PLAYLIST_TITLE (.text (("X").data)), .hpim 0,
          .hohm 0 HohmType.PLAYLIST_TITLE (.text (("Y").data))].get j =
          .hohm 0 HohmType.PLAYLIST_TITLE (.text (("X").data))) := by
  decide

/-- C10 amended: a playlist span opened by a playlist-start record and
closed by the next one or the end of stream, holding entry keys but no
`PLAYLIST_TITLE` field, makes the run fail with a missing-key error and
produce no output; and every playlist present in a successful output
received its title from a `PLAYLIST_TITLE` field lying inside one
complete accumulation span — a playlist-start-free stretch of records
that begins at the start of the stream or immediately after a
playlist-start record, and is closed by the next playlist-start record
or the end of the stream. -/
theorem C10_missing_title_commit :
    (∀ (pre mid post : List Record) (c : Nat),
      (∀ r ∈ mid, r.isHpim = false ∧ r.isPlaylistTitleHohm = false) →
      (∃ r ∈ mid, r.isHptm = true) →
      (post = [] ∨ ∃ c' rest, post = Record.hpim c' :: rest) →
      ∃ f, assemble (pre ++ .hpim c :: (mid ++ post)) = .error (.keyError f))
    ∧ (∀ (recs : List Record) (tb : Tables) (t : HohmData) (pl : Playlist),
      assemble recs = .ok tb → (t, pl) ∈ tb.2 →
      titledInClosedSpan recs t ∨ titledInFinalSpan recs t) := by
  constructor
  · intro pre mid post c hall hexist hpost
    rw [assemble_eq_assembleFrom, assembleFrom_append]
    rcases h0 : stepFold asmInit pre with e | st0
    · obtain ⟨f⟩ := e
      exact ⟨f, rfl⟩
    · dsimp only
      rcases h1 : asmStep st0 (.hpim c) with e | st1
      · obtain ⟨f⟩ := e
        refine ⟨f, ?_⟩
        dsimp only [assembleFrom, stepFold]
        rw [h1]
      · have hpl := asmStep_hpim_ok st0 st1 c h1
        have hmid := stepFold_untitled mid st1 hall (by rw [hpl]) (by rw [hpl]; rfl)
        rcases hmid with ⟨e, he⟩ | ⟨st2, hok, hti, hit⟩
        · obtain ⟨f⟩ := e
          refine ⟨f, ?_⟩
          dsimp only [assembleFrom, stepFold]
          rw [h1]
          dsimp only
          rw [stepFold_append, he]
        · rcases hpost with rfl | ⟨c', rest, rfl⟩
          · obtain ⟨f, hf⟩ := finalCommit_untitled st2 hti hit
            refine ⟨f, ?_⟩
            dsimp only [assembleFrom, stepFold]
            rw [h1]
            dsimp only
            rw [List.append_nil, hok]
            exact hf
          · have herr := asmStep_hpim_untitled st2 c' hti hit
            refine ⟨.title, ?_⟩
            dsimp only [assembleFrom, stepFold]
            rw [h1]
            dsimp only
            rw [stepFold_append, hok]
            dsimp only [stepFold]
            rw [herr]
  · intro recs tb t pl h hmem
    dsimp only [assemble] at h
    rcases hsf : stepFold asmInit recs with e | stF <;> rw [hsf] at h <;> dsimp only at h
    · exact Except.noConfusion h
    · obtain ⟨g1, g2⟩ := stepFold_span_inv recs [] asmInit stF
        (fun t0 ht0 => Option.noConfusion ht0)
        (fun t0 pl0 hm0 => absurd hm0 (List.not_mem_nil _))
        hsf
      rcases finalCommit_title_src stF tb t pl h hmem with ⟨pl0, hmem0⟩ | htF
      · refine Or.inl ?_
        have hc := g2 t pl0 hmem0
        rwa [List.nil_append] at hc
      · refine Or.inr ?_
        have hc := g1 t htF
        rwa [List.nil_append] at hc

/-- C10 witness: a span holding one entry key and no title fails with a
missing-key error, and the committed playlist `M` of a successful run
received its title inside a complete accumulation span of the
sequence. -/
theorem C10_missing_title_commit_witness :
    (∃ f, assemble [.hpim 0, .hptm 1] = .error (.keyError f))
    ∧ (titledInClosedSpan [Record.hpim 0, Record.hohm 3 HohmType.PLAYLIST_TITLE (.text (("M").data))]
        (.text (("M").data))
      ∨ titledInFinalSpan [Record.hpim 0, Record.hohm 3 HohmType.PLAYLIST_TITLE (.text (("M").data))]
        (.text (("M").data))) := by
  constructor
  · exact C10_missing_title_commit.1 [] [.hptm 1] [] 0 (by decide)
      ⟨.hptm 1, by decide⟩ (Or.inl rfl)
  · exact C10_missing_title_commit.2 [.hpim 0, .hohm 3 HohmType.PLAYLIST_TITLE (.text (("M").data))]
      ([], [(.text (("M").data), ⟨some (.text (("M").data)), some []⟩)])
      (.text (("M").data)) ⟨some (.text (("M").data)), some []⟩ (by decide) (by decide)

set_option maxRecDepth 10000 in
/-- C1: the output tables are NOT a function of the raw container bytes —
the module re-reads the record stream from the hard-coded debug file
(source lines 305-306), discarding the envelope output.  With the raw
container fixed (0x90 zero bytes, stub decrypt and inflate), an empty
debug file yields empty tables while a debug file holding one `htim`
chunk yields a one-track table: the tables track the debug file, not the
raw input. -/
theorem C1_pipeline_reads_debug_file :
    modulePipeline (fun _ c => c) (fun b => some b) (List.replicate 144 0) [] =
      .ok ([], [])
    ∧ modulePipeline (fun _ c => c) (fun b => some b) (List.replicate 144 0)
        ([104, 116, 105, 109] ++ [0, 0, 0, 24] ++ [0, 0, 0, 24] ++ [0, 0, 0, 0] ++
          [0, 0, 0, 5] ++ [0, 0, 0, 0]) =
      .ok ([(5, { song_id := some 5 })], [])
    ∧ modulePipeline (fun _ c => c) (fun b => some b) (List.replicate 144 0) [] ≠
      modulePipeline (fun _ c => c) (fun b => some b) (List.replicate 144 0)
        ([104, 116, 105, 109] ++ [0, 0, 0, 24] ++ [0, 0, 0, 24] ++ [0, 0, 0, 0] ++
          [0, 0, 0, 5] ++ [0, 0, 0, 0]) := by
  refine ⟨by decide, by decide, by decide⟩
